import Mathlib

/-!
Verification development for the yo-gurt GURT protocol client
(TypeScript sources: `src/packages/yo-gurt/index.ts`, the Node port, and
`src/unnamed/part_001`, the web-streams port).

Bytes are modelled as `Nat`, byte buffers as `List Nat`, and the chunks a
transport delivers before signalling end-of-stream as `List (List Nat)`.
JavaScript strings that the parsers manipulate are modelled at the byte
level (the claims concern ASCII data, on which `TextDecoder`/`toString`
are the identity embedding byte-for-char).
-/

namespace Yonet

/-- Protocol constant `MAX_MESSAGE_SIZE = 10 * 1024 * 1024` from both ports. -/
def MAX_MESSAGE_SIZE : Nat := 10 * 1024 * 1024

/-- The errors thrown by the implementation, named after the thrown message
strings: `Unexpected EOF` (the spec's TruncatedStream), `Invalid protocol`
(ProtocolMismatch), `Invalid status code` (MalformedStatusCode),
`Invalid header` (MalformedHeader).  `lineTooLong` is the spec's
`LineTooLong` error kind; no code path in either port constructs it. -/
inductive Err where
  | unexpectedEOF
  | invalidProtocol
  | invalidStatusCode
  | invalidHeader
  | lineTooLong
  deriving DecidableEq

/-- State of a `BufferedReader` (web port, `src/unnamed/part_001` lines
82-143): `buf` is the pending byte buffer `#buf`; `chunks` are the chunks
the transport will still deliver before end-of-stream (`#done` corresponds
to `chunks = []`). -/
structure ReaderState where
  buf : List Nat
  chunks : List (List Nat)
  deriving DecidableEq

/-- Decidable equality on `Except`, so results evaluate with `decide`. -/
instance {ε α : Type} [DecidableEq ε] [DecidableEq α] : DecidableEq (Except ε α)
  | .ok a, .ok b =>
    if h : a = b then .isTrue (by rw [h]) else .isFalse (by intro hc; cases hc; exact h rfl)
  | .ok _, .error _ => .isFalse (by intro hc; cases hc)
  | .error _, .ok _ => .isFalse (by intro hc; cases hc)
  | .error a, .error b =>
    if h : a = b then .isTrue (by rw [h]) else .isFalse (by intro hc; cases hc; exact h rfl)

/-- `#indexOfCRLF` (part_001 lines 98-104): index of the first `i` with
`b[i] = 0x0d` and `b[i+1] = 0x0a`, scanning positions `i` with
`i + 1 < b.length`. -/
def idxCRLF : List Nat → Option Nat
  | [] => none
  | [_] => none
  | a :: b :: rest =>
    if a = 13 ∧ b = 10 then some 0
    else (idxCRLF (b :: rest)).map (· + 1)

namespace BufferedReader

/-- `readExact` loop (part_001 lines 117-123): pull chunks while fewer than
`n` bytes are buffered and the stream is not done; then either throw
`Unexpected EOF` or split off the first `n` bytes. -/
def readExactLoop (n : Nat) : List Nat → List (List Nat) → Except Err (List Nat × ReaderState)
  | buf, chunks =>
    if n ≤ buf.length then .ok (buf.take n, ⟨buf.drop n, chunks⟩)
    else
      match chunks with
      | [] => .error .unexpectedEOF
      | c :: rest => readExactLoop n (buf ++ c) rest

/-- `BufferedReader.readExact(n)` from a reader state. -/
def readExact (n : Nat) (st : ReaderState) : Except Err (List Nat × ReaderState) :=
  readExactLoop n st.buf st.chunks

/-- `readUntilCRLF` loop (part_001 lines 126-133): pull chunks while no CRLF
is buffered and the stream is not done; then either throw `Unexpected EOF`
or return the bytes through the CRLF, consuming them. -/
def readUntilCRLFLoop : List Nat → List (List Nat) → Except Err (List Nat × ReaderState)
  | buf, chunks =>
    match idxCRLF buf with
    | some i => .ok (buf.take (i + 2), ⟨buf.drop (i + 2), chunks⟩)
    | none =>
      match chunks with
      | [] => .error .unexpectedEOF
      | c :: rest => readUntilCRLFLoop (buf ++ c) rest

/-- `BufferedReader.readUntilCRLF()` from a reader state. -/
def readUntilCRLF (st : ReaderState) : Except Err (List Nat × ReaderState) :=
  readUntilCRLFLoop st.buf st.chunks

/-- `readAvailable(n)` (part_001 lines 136-142): if the buffer is empty and
the stream is not done, pull exactly one chunk; then return up to `n`
buffered bytes.  It never throws. -/
def readAvailable (n : Nat) (st : ReaderState) : List Nat × ReaderState :=
  let pulled : List Nat × List (List Nat) :=
    if st.buf.isEmpty then
      match st.chunks with
      | [] => (st.buf, [])
      | c :: rest => (st.buf ++ c, rest)
    else (st.buf, st.chunks)
  let take := min n pulled.1.length
  (pulled.1.take take, ⟨pulled.1.drop take, pulled.2⟩)

end BufferedReader

/-- Outcome of an operation of the Node port (`index.ts`), whose `waitFor`
can suspend forever: `hang` records that the awaited predicate is never
satisfied by any remaining event. -/
inductive NodeOutcome (α : Type) where
  | ok (a : α)
  | err (e : Err)
  | hang
  deriving DecidableEq

namespace NodeReader

/-- `waitFor(predicate)` of the Node port (`index.ts` lines 82-86) together
with its event sources (lines 71-80): each `data` event appends a chunk to
`buf` and wakes the waiter; after the last chunk a single `end` event sets
`readableEnded` and wakes the waiter; after that no event ever fires, so a
still-unsatisfied predicate means the promise is never resolved (`none`).
The predicate sees the buffer and the `readableEnded` flag. -/
def waitFor (pred : List Nat → Bool → Bool) :
    List Nat → List (List Nat) → Bool → Option (List Nat × List (List Nat) × Bool)
  | buf, chunks, ended =>
    if pred buf ended then some (buf, chunks, ended)
    else
      match chunks with
      | c :: rest => waitFor pred (buf ++ c) rest ended
      | [] =>
        if ended then none
        else if pred buf true then some (buf, [], true) else none

/-- `BufferedReader.readUntilCRLF` of the Node port (`index.ts` lines
96-107): waits for `idx() >= 0 || (buf.length === 0 && readableEnded)`,
then throws `Unexpected EOF` or returns through the CRLF. -/
def readUntilCRLF (buf : List Nat) (chunks : List (List Nat)) (ended : Bool) :
    NodeOutcome (List Nat × List Nat) :=
  match waitFor (fun b e => (idxCRLF b).isSome || (b.isEmpty && e)) buf chunks ended with
  | none => .hang
  | some (buf2, _, _) =>
    match idxCRLF buf2 with
    | none => .err .unexpectedEOF
    | some i => .ok (buf2.take (i + 2), buf2.drop (i + 2))

/-- `BufferedReader.readExact` of the Node port (`index.ts` lines 88-94):
waits for `buf.length >= n || buf.length === 0 && readableEnded`, then
throws `Unexpected EOF` or splits off `n` bytes. -/
def readExact (n : Nat) (buf : List Nat) (chunks : List (List Nat)) (ended : Bool) :
    NodeOutcome (List Nat × List Nat) :=
  match waitFor (fun b e => n ≤ b.length || (b.isEmpty && e)) buf chunks ended with
  | none => .hang
  | some (buf2, _, _) =>
    if buf2.length < n then .err .unexpectedEOF
    else .ok (buf2.take n, buf2.drop n)

/-- `BufferedReader.readAvailable` of the Node port (`index.ts` lines
110-118): if the buffer is empty, wait for `buf.length > 0 ||
readableEnded`; then return up to `n` buffered bytes. -/
def readAvailable (n : Nat) (buf : List Nat) (chunks : List (List Nat)) (ended : Bool) :
    NodeOutcome (List Nat × List Nat × List (List Nat) × Bool) :=
  let waited :=
    if buf.isEmpty then waitFor (fun b e => !b.isEmpty || e) buf chunks ended
    else some (buf, chunks, ended)
  match waited with
  | none => .hang
  | some (buf2, chunks2, ended2) =>
    let take := min n buf2.length
    .ok (buf2.take take, buf2.drop take, chunks2, ended2)

end NodeReader

/-- Bytes of a (pure-ASCII) string literal, the embedding of JS strings. -/
def asciiBytes (s : String) : List Nat := s.toList.map Char.toNat

/-- Bytes of the constant `GURT_VERSION = 'GURT/1.0.0'`. -/
def GURT_VERSION_B : List Nat := asciiBytes "GURT/1.0.0"

/-- JS `line.split(' ')`: splits on every single space, keeping empty
segments; the result is always nonempty. -/
def splitOnSpace : List Nat → List (List Nat)
  | [] => [[]]
  | 32 :: rest => [] :: splitOnSpace rest
  | c :: rest =>
    match splitOnSpace rest with
    | [] => [[c]]
    | s :: ss => (c :: s) :: ss

/-- The ASCII whitespace recognised by JS `trim()` and skipped by
`parseInt` (space, tab, LF, VT, FF, CR). -/
def isJsWhitespace (c : Nat) : Bool := c = 32 || c = 9 || c = 10 || c = 11 || c = 12 || c = 13

/-- JS `String.prototype.trim()` on bytes. -/
def trimBytes (l : List Nat) : List Nat :=
  (((l.dropWhile isJsWhitespace).reverse).dropWhile isJsWhitespace).reverse

/-- ASCII case folding of JS `toLowerCase()`. -/
def toLowerByte (c : Nat) : Nat := if 65 ≤ c ∧ c ≤ 90 then c + 32 else c

/-- ASCII decimal digit test. -/
def isDigitByte (c : Nat) : Bool := 48 ≤ c && c ≤ 57

/-- JS `parseInt(tok, 10)`: skip leading whitespace, read an optional sign,
then the longest digit prefix; `none` models `NaN` (no digit found).
Trailing non-digit characters are ignored. -/
def jsParseInt (s : List Nat) : Option Int :=
  let s1 := s.dropWhile isJsWhitespace
  let signAndRest : Int × List Nat :=
    match s1 with
    | 45 :: rest => (-1, rest)
    | 43 :: rest => (1, rest)
    | _ => (1, s1)
  let ds := signAndRest.2.takeWhile isDigitByte
  if ds.isEmpty then none
  else some (signAndRest.1 * (ds.foldl (fun acc d => acc * 10 + (d - 48)) 0 : Nat))

/-- `StatusLineResult` (status code as the integer `parseInt` produced). -/
structure StatusLineResult where
  status : Int
  bytesRead : Nat
  deriving DecidableEq

/-- `HeaderResult` with name and value at the byte level. -/
structure HeaderResult where
  name : List Nat
  value : List Nat
  totalBytes : Nat
  deriving DecidableEq

namespace ResponseReader

/-- `ResponseReader.readStatusLine` (part_001 lines 259-267, index.ts lines
214-222): read one CRLF line, split on spaces, require the first token to
equal `GURT_VERSION`, `parseInt` the second token (absent second token
behaves as `parseInt(undefined) = NaN`), and return the parsed code. -/
def readStatusLine (st : ReaderState) : Except Err (StatusLineResult × ReaderState) :=
  match BufferedReader.readUntilCRLF st with
  | .error e => .error e
  | .ok (buf, st2) =>
    let line := buf.take (buf.length - 2)
    let parts := splitOnSpace line
    if parts.head? = some GURT_VERSION_B then
      match parts[1]? with
      | none => .error .invalidStatusCode
      | some tok =>
        match jsParseInt tok with
        | none => .error .invalidStatusCode
        | some code => .ok (⟨code, buf.length⟩, st2)
    else .error .invalidProtocol

/-- Index of the first colon (byte 58), JS `line.indexOf(':')`. -/
def idxColon : List Nat → Option Nat
  | [] => none
  | c :: rest => if c = 58 then some 0 else (idxColon rest).map (· + 1)

/-- `ResponseReader.readHeader` (part_001 lines 270-279, index.ts lines
224-233): read one CRLF line; a bare CRLF (length 2) ends the headers;
otherwise split at the first colon, with the name trimmed and lowercased
and the value trimmed; no colon throws `Invalid header`. -/
def readHeader (st : ReaderState) : Except Err (Option HeaderResult × ReaderState) :=
  match BufferedReader.readUntilCRLF st with
  | .error e => .error e
  | .ok (buf, st2) =>
    if buf.length = 2 then .ok (none, st2)
    else
      let line := buf.take (buf.length - 2)
      match idxColon line with
      | none => .error .invalidHeader
      | some i =>
        let name := (trimBytes (line.take i)).map toLowerByte
        let value := trimBytes (line.drop (i + 1))
        .ok (some ⟨name, value, buf.length⟩, st2)

/-- `ResponseReader.readBody(target)` (part_001 lines 282-286, index.ts
lines 235-239): `readAvailable` up to the caller buffer's length, copy into
the caller's buffer, and return the byte count.  Modelled as returning the
bytes read (whose length is the returned count) and the new state. -/
def readBody (targetLen : Nat) (st : ReaderState) : List Nat × ReaderState :=
  BufferedReader.readAvailable targetLen st

end ResponseReader

/-- The `Method` enum; its wire form is the enum's string value. -/
inductive Method where
  | get | post | put | delete | head | options | patch | handshake
  deriving DecidableEq

/-- String value of a `Method`, as interpolated into the request line. -/
def Method.wire : Method → String
  | .get => "GET"
  | .post => "POST"
  | .put => "PUT"
  | .delete => "DELETE"
  | .head => "HEAD"
  | .options => "OPTIONS"
  | .patch => "PATCH"
  | .handshake => "HANDSHAKE"

/-- The string constant `GURT_VERSION`. -/
def GURT_VERSION_S : String := "GURT/1.0.0"

namespace GurtClient

/-- `GurtClient.requestNoBody` (part_001 lines 205-211, index.ts lines
159-165): the four strings written to the transport, in order; the
user-agent defaults to `'yo-gurt/0.1'` when omitted. -/
def requestNoBody (method : Method) (path host : String) (userAgent : Option String) :
    List String :=
  let ua := userAgent.getD "yo-gurt/0.1"
  [method.wire ++ " " ++ path ++ " " ++ GURT_VERSION_S ++ "\r\n",
   "host: " ++ host ++ "\r\n",
   "user-agent: " ++ ua ++ "\r\n",
   "\r\n"]

/-- `GurtClient.setTransport` (part_001 lines 180-185) / `setSocket`
(index.ts lines 134-138): bind a brand-new `BufferedReader` (empty buffer)
to the new transport; the old reader and its pending bytes are dropped. -/
def setTransport (_old : ReaderState) (newChunks : List (List Nat)) : ReaderState :=
  ⟨[], newChunks⟩

end GurtClient

/-- One reader operation, for reasoning about call sequences. -/
inductive Op where
  | exact (n : Nat)
  | untilCRLF
  | avail (n : Nat)
  deriving DecidableEq

/-- Run one operation on a reader state. -/
def runOp : Op → ReaderState → Except Err (List Nat × ReaderState)
  | .exact n, st => BufferedReader.readExact n st
  | .untilCRLF, st => BufferedReader.readUntilCRLF st
  | .avail n, st => .ok (BufferedReader.readAvailable n st)

/-- Run a sequence of operations, concatenating the returned bytes. -/
def runAll : ReaderState → List Op → Except Err (List Nat × ReaderState)
  | st, [] => .ok ([], st)
  | st, op :: ops =>
    match runOp op st with
    | .error e => .error e
    | .ok (o, st2) =>
      match runAll st2 ops with
      | .error e => .error e
      | .ok (rest, st3) => .ok (o ++ rest, st3)

/-! ## Lemmas about the CRLF scan -/

/-- A CRLF found at index `i` lies wholly inside the list. -/
theorem idxCRLF_le_length : ∀ (l : List Nat) (i : Nat), idxCRLF l = some i → i + 2 ≤ l.length
  | [], _, h => by simp [idxCRLF] at h
  | [_], _, h => by simp [idxCRLF] at h
  | a :: b :: rest, i, h => by
    by_cases hc : a = 13 ∧ b = 10
    · rw [idxCRLF, if_pos hc] at h
      cases h
      simp only [List.length_cons]
      omega
    · rw [idxCRLF, if_neg hc] at h
      obtain ⟨j, hj, hji⟩ := Option.map_eq_some'.mp h
      have := idxCRLF_le_length (b :: rest) j hj
      simp only [List.length_cons] at this ⊢
      omega

/-- Appending bytes after a found CRLF does not move the first CRLF. -/
theorem idxCRLF_append_some :
    ∀ (l t : List Nat) (i : Nat), idxCRLF l = some i → idxCRLF (l ++ t) = some i
  | [], _, _, h => by simp [idxCRLF] at h
  | [_], _, _, h => by simp [idxCRLF] at h
  | a :: b :: rest, t, i, h => by
    by_cases hc : a = 13 ∧ b = 10
    · rw [idxCRLF, if_pos hc] at h
      cases h
      simp only [List.cons_append]
      rw [idxCRLF, if_pos hc]
    · rw [idxCRLF, if_neg hc] at h
      obtain ⟨j, hj, hji⟩ := Option.map_eq_some'.mp h
      have hrec := idxCRLF_append_some (b :: rest) t j hj
      simp only [List.cons_append] at hrec ⊢
      rw [idxCRLF, if_neg hc, hrec]
      simp [hji]

/-- Decomposition of a failed CRLF scan over a two-element head. -/
theorem idxCRLF_none_parts {a b : Nat} {rest : List Nat} (h : idxCRLF (a :: b :: rest) = none) :
    ¬(a = 13 ∧ b = 10) ∧ idxCRLF (b :: rest) = none := by
  by_cases hc : a = 13 ∧ b = 10
  · rw [idxCRLF, if_pos hc] at h
    cases h
  · rw [idxCRLF, if_neg hc] at h
    exact ⟨hc, Option.map_eq_none'.mp h⟩

/-- Appending a CRLF to a CRLF-free list puts the first CRLF exactly at the
end of the original list. -/
theorem idxCRLF_append_crlf :
    ∀ (l t : List Nat), idxCRLF l = none → idxCRLF (l ++ 13 :: 10 :: t) = some l.length
  | [], t, _ => by
    rw [List.nil_append, idxCRLF, if_pos ⟨rfl, rfl⟩]
    rfl
  | [a], t, _ => by
    simp only [List.cons_append, List.nil_append]
    rw [idxCRLF, if_neg (by omega), idxCRLF, if_pos ⟨rfl, rfl⟩]
    rfl
  | a :: b :: rest, t, h => by
    obtain ⟨hc, h2⟩ := idxCRLF_none_parts h
    have hrec := idxCRLF_append_crlf (b :: rest) t h2
    simp only [List.cons_append] at hrec ⊢
    rw [idxCRLF, if_neg hc, hrec]
    simp

/-- A list without the byte 13 contains no CRLF. -/
theorem idxCRLF_of_not_mem13 : ∀ (l : List Nat), 13 ∉ l → idxCRLF l = none
  | [], _ => rfl
  | [_], _ => rfl
  | a :: b :: rest, h => by
    have ha : ¬(a = 13 ∧ b = 10) := fun hc => h (by simp [hc.1])
    have h2 : (13 : Nat) ∉ b :: rest := fun m => h (List.mem_cons_of_mem _ m)
    rw [idxCRLF, if_neg ha, idxCRLF_of_not_mem13 (b :: rest) h2]
    rfl

/-! ## Conservation: every read returns a prefix of the bytes it consumes,
and the remaining buffered-plus-undelivered bytes are exactly the rest. -/

/-- `readExactLoop` returns bytes that, together with what remains
available, reassemble the original available bytes. -/
theorem readExactLoop_conserve (n : Nat) :
    ∀ (chunks : List (List Nat)) (buf out : List Nat) (st : ReaderState),
      BufferedReader.readExactLoop n buf chunks = .ok (out, st) →
      out ++ (st.buf ++ st.chunks.flatten) = buf ++ chunks.flatten
  | [], buf, out, st, h => by
    rw [BufferedReader.readExactLoop] at h
    split at h
    · simp only [Except.ok.injEq, Prod.mk.injEq] at h
      obtain ⟨rfl, rfl⟩ := h
      simp [← List.append_assoc, List.take_append_drop]
    · cases h
  | c :: rest, buf, out, st, h => by
    rw [BufferedReader.readExactLoop] at h
    split at h
    · simp only [Except.ok.injEq, Prod.mk.injEq] at h
      obtain ⟨rfl, rfl⟩ := h
      simp [← List.append_assoc, List.take_append_drop]
    · have := readExactLoop_conserve n rest (buf ++ c) out st h
      simpa [List.append_assoc] using this

/-- Conservation for `readUntilCRLFLoop`. -/
theorem readUntilCRLFLoop_conserve :
    ∀ (chunks : List (List Nat)) (buf out : List Nat) (st : ReaderState),
      BufferedReader.readUntilCRLFLoop buf chunks = .ok (out, st) →
      out ++ (st.buf ++ st.chunks.flatten) = buf ++ chunks.flatten
  | [], buf, out, st, h => by
    rw [BufferedReader.readUntilCRLFLoop] at h
    split at h
    · simp only [Except.ok.injEq, Prod.mk.injEq] at h
      obtain ⟨rfl, rfl⟩ := h
      simp [← List.append_assoc, List.take_append_drop]
    · cases h
  | c :: rest, buf, out, st, h => by
    rw [BufferedReader.readUntilCRLFLoop] at h
    split at h
    · simp only [Except.ok.injEq, Prod.mk.injEq] at h
      obtain ⟨rfl, rfl⟩ := h
      simp [← List.append_assoc, List.take_append_drop]
    · have := readUntilCRLFLoop_conserve rest (buf ++ c) out st h
      simpa [List.append_assoc] using this

/-- Conservation for `readAvailable` (which never fails). -/
theorem readAvailable_conserve (n : Nat) (st : ReaderState) :
    (BufferedReader.readAvailable n st).1 ++
      ((BufferedReader.readAvailable n st).2.buf ++
        (BufferedReader.readAvailable n st).2.chunks.flatten) =
      st.buf ++ st.chunks.flatten := by
  obtain ⟨buf, chunks⟩ := st
  by_cases hb : buf.isEmpty
  · cases chunks with
    | nil => simp [BufferedReader.readAvailable, hb, ← List.append_assoc, List.take_append_drop]
    | cons c rest =>
      simp [BufferedReader.readAvailable, hb, ← List.append_assoc, List.take_append_drop]
  · simp [BufferedReader.readAvailable, hb, ← List.append_assoc, List.take_append_drop]

/-- Conservation for a single reader operation. -/
theorem runOp_conserve (op : Op) (st : ReaderState) (out : List Nat) (st2 : ReaderState)
    (h : runOp op st = .ok (out, st2)) :
    out ++ (st2.buf ++ st2.chunks.flatten) = st.buf ++ st.chunks.flatten := by
  cases op with
  | exact n => exact readExactLoop_conserve n st.chunks st.buf out st2 h
  | untilCRLF => exact readUntilCRLFLoop_conserve st.chunks st.buf out st2 h
  | avail n =>
    simp only [runOp, Except.ok.injEq] at h
    have := readAvailable_conserve n st
    rw [h] at this
    simpa using this

/-- Conservation for a sequence of reader operations. -/
theorem runAll_conserve :
    ∀ (ops : List Op) (st : ReaderState) (out : List Nat) (st2 : ReaderState),
      runAll st ops = .ok (out, st2) →
      out ++ (st2.buf ++ st2.chunks.flatten) = st.buf ++ st.chunks.flatten
  | [], st, out, st2, h => by
    simp only [runAll, Except.ok.injEq, Prod.mk.injEq] at h
    obtain ⟨rfl, rfl⟩ := h
    simp
  | op :: ops, st, out, st2, h => by
    simp only [runAll] at h
    cases hop : runOp op st with
    | error e => rw [hop] at h; cases h
    | ok p =>
      obtain ⟨o, stm⟩ := p
      rw [hop] at h
      dsimp only at h
      cases hrest : runAll stm ops with
      | error e => rw [hrest] at h; cases h
      | ok q =>
        obtain ⟨rest, stf⟩ := q
        rw [hrest] at h
        dsimp only at h
        simp only [Except.ok.injEq, Prod.mk.injEq] at h
        obtain ⟨rfl, rfl⟩ := h
        have h1 := runOp_conserve op st o stm hop
        have h2 := runAll_conserve ops stm rest stf hrest
        calc (o ++ rest) ++ (stf.buf ++ stf.chunks.flatten)
            = o ++ (rest ++ (stf.buf ++ stf.chunks.flatten)) := by rw [List.append_assoc]
          _ = o ++ (stm.buf ++ stm.chunks.flatten) := by rw [h2]
          _ = st.buf ++ st.chunks.flatten := h1

/-! ## Chunking invariance for the delimiter read -/

/-- When the available bytes contain a CRLF at first index `i`,
`readUntilCRLFLoop` succeeds with exactly the first `i + 2` available
bytes, and what remains available afterwards is exactly the rest — however
the bytes are split into chunks. -/
theorem readUntilCRLFLoop_ok_of_crlf :
    ∀ (chunks : List (List Nat)) (buf : List Nat) (i : Nat),
      idxCRLF (buf ++ chunks.flatten) = some i →
      ∃ st : ReaderState,
        BufferedReader.readUntilCRLFLoop buf chunks =
          .ok ((buf ++ chunks.flatten).take (i + 2), st) ∧
        st.buf ++ st.chunks.flatten = (buf ++ chunks.flatten).drop (i + 2)
  | [], buf, i, h => by
    simp only [List.flatten_nil, List.append_nil] at h ⊢
    refine ⟨⟨buf.drop (i + 2), []⟩, ?_, ?_⟩
    · rw [BufferedReader.readUntilCRLFLoop, h]
    · simp
  | c :: rest, buf, i, h => by
    cases hb : idxCRLF buf with
    | some j =>
      have hj := idxCRLF_append_some buf ((c :: rest).flatten) j hb
      rw [h] at hj
      have hij : i = j := Option.some.inj hj
      subst hij
      have hlen := idxCRLF_le_length buf i hb
      refine ⟨⟨buf.drop (i + 2), c :: rest⟩, ?_, ?_⟩
      · rw [BufferedReader.readUntilCRLFLoop, hb, List.take_append_of_le_length hlen]
      · simp only []
        rw [List.drop_append_of_le_length hlen]
    | none =>
      rw [BufferedReader.readUntilCRLFLoop, hb]
      have h2 : idxCRLF ((buf ++ c) ++ rest.flatten) = some i := by
        simpa [List.append_assoc] using h
      have hrec := readUntilCRLFLoop_ok_of_crlf rest (buf ++ c) i h2
      simpa [List.append_assoc] using hrec

/-! ## Reading one fully-buffered CRLF-terminated line -/

/-- A buffered CRLF-free line followed by its CRLF is returned whole. -/
theorem readUntilCRLF_whole_line (line : List Nat) (h : idxCRLF line = none) :
    BufferedReader.readUntilCRLF ⟨line ++ [13, 10], []⟩ = .ok (line ++ [13, 10], ⟨[], []⟩) := by
  have hi : idxCRLF (line ++ 13 :: 10 :: []) = some line.length := idxCRLF_append_crlf line [] h
  show BufferedReader.readUntilCRLFLoop (line ++ [13, 10]) [] = _
  rw [BufferedReader.readUntilCRLFLoop, hi]
  dsimp only
  rw [List.take_of_length_le (by simp), List.drop_eq_nil_of_le (by simp)]

/-- Stripping the final CRLF recovers the line. -/
theorem crlf_line_extract (line : List Nat) :
    (line ++ [13, 10]).take ((line ++ [13, 10]).length - 2) = line := by
  have h2 : (line ++ [13, 10]).length - 2 = line.length := by simp
  rw [h2, List.take_left]

/-- First-colon position when the line splits as `before ++ : ++ after`
with no colon in `before`. -/
theorem idxColon_append (before after : List Nat) (h : 58 ∉ before) :
    ResponseReader.idxColon (before ++ 58 :: after) = some before.length := by
  induction before with
  | nil =>
    rw [List.nil_append, ResponseReader.idxColon, if_pos rfl]
    rfl
  | cons a rest ih =>
    have ha : ¬ a = 58 := fun e => h (by simp [e])
    have h2 : (58 : Nat) ∉ rest := fun m => h (List.mem_cons_of_mem _ m)
    simp only [List.cons_append]
    rw [ResponseReader.idxColon, if_neg ha, ih h2]
    rfl

/-- A line with no colon byte yields no colon index. -/
theorem idxColon_of_not_mem (line : List Nat) (h : 58 ∉ line) :
    ResponseReader.idxColon line = none := by
  induction line with
  | nil => rfl
  | cons a rest ih =>
    have ha : ¬ a = 58 := fun e => h (by simp [e])
    have h2 : (58 : Nat) ∉ rest := fun m => h (List.mem_cons_of_mem _ m)
    rw [ResponseReader.idxColon, if_neg ha, ih h2]
    rfl

/-- Computation of `readStatusLine` on one fully-buffered CRLF line. -/
theorem readStatusLine_line (line : List Nat) (h : idxCRLF line = none) :
    ResponseReader.readStatusLine ⟨line ++ [13, 10], []⟩ =
      (if (splitOnSpace line).head? = some GURT_VERSION_B then
        match (splitOnSpace line)[1]? with
        | none => .error .invalidStatusCode
        | some tok =>
          match jsParseInt tok with
          | none => .error .invalidStatusCode
          | some code => .ok (⟨code, line.length + 2⟩, ⟨[], []⟩)
      else .error .invalidProtocol) := by
  rw [ResponseReader.readStatusLine, readUntilCRLF_whole_line line h]
  dsimp only
  rw [crlf_line_extract]
  have hlen : (line ++ [13, 10]).length = line.length + 2 := by simp
  rw [hlen]

/-- A token consisting only of decimal digits and nonempty: the claim's
notion of a valid non-negative integer token, following the spec's words;
used only to state how the implementation diverges from the claim. -/
def specValidNonNegIntToken (tok : List Nat) : Bool :=
  !tok.isEmpty && tok.all isDigitByte

/-! ## Claim theorems -/

/-- C1: the claim says `readUntilCRLF` must fail with `LineTooLong` once
the undelimited buffered prefix exceeds `MAX_MESSAGE_SIZE`.  The code
enforces no such bound: on a single delimiter-free chunk of any size `n`,
even `n > MAX_MESSAGE_SIZE`, it buffers the whole chunk and fails only at
end-of-stream with `Unexpected EOF` (the TruncatedStream error), never
with `LineTooLong`. -/
theorem readUntilCRLF_oversized_line_no_lineTooLong (n : Nat)
    (_bound : MAX_MESSAGE_SIZE < n) :
    BufferedReader.readUntilCRLFLoop [] [List.replicate n 97] =
      .error .unexpectedEOF ∧ Err.unexpectedEOF ≠ Err.lineTooLong := by
  have h97 : idxCRLF (List.replicate n 97) = none :=
    idxCRLF_of_not_mem13 _ (by simp [List.mem_replicate])
  refine ⟨?_, by decide⟩
  rw [BufferedReader.readUntilCRLFLoop]
  dsimp only [idxCRLF]
  rw [List.nil_append, BufferedReader.readUntilCRLFLoop, h97]

/-- Witness for C1 at the concrete bound `MAX_MESSAGE_SIZE + 1`. -/
theorem readUntilCRLF_oversized_line_no_lineTooLong_witness :
    MAX_MESSAGE_SIZE < MAX_MESSAGE_SIZE + 1 ∧
    (BufferedReader.readUntilCRLFLoop [] [List.replicate (MAX_MESSAGE_SIZE + 1) 97] =
      .error .unexpectedEOF ∧ Err.unexpectedEOF ≠ Err.lineTooLong) :=
  ⟨Nat.lt_succ_self _,
    readUntilCRLF_oversized_line_no_lineTooLong (MAX_MESSAGE_SIZE + 1) (Nat.lt_succ_self _)⟩

/-- C2: on the stream that delivers the delimiter-free bytes `abc` and then
ends, the web port's `readUntilCRLF` terminates with `Unexpected EOF`
(TruncatedStream), as the claim requires — but the Node port's
`readUntilCRLF` suspends forever, because its wake-up predicate
`idx() >= 0 || (buf.length === 0 && readableEnded)` can never become true
once undelimited bytes remain buffered at end-of-stream. -/
theorem readUntilCRLF_eof_terminates_web_hangs_node :
    BufferedReader.readUntilCRLFLoop [] [[97, 98, 99]] = .error .unexpectedEOF ∧
    NodeReader.readUntilCRLF [] [[97, 98, 99]] false = .hang := by decide

/-- C3: on the stream that delivers 3 bytes and then ends, `readExact 10`
of the web port fails with `Unexpected EOF` (TruncatedStream) as the claim
requires, while the Node port's `readExact 10` suspends forever (its
predicate `buf.length >= n || buf.length === 0 && readableEnded` stays
false with 3 bytes buffered at end-of-stream).  When at least `n` bytes
are supplied, `readExact n` returns exactly the first `n` bytes and
retains the extras. -/
theorem readExact_eof_terminates_web_hangs_node :
    BufferedReader.readExactLoop 10 [] [[97, 98, 99]] = .error .unexpectedEOF ∧
    NodeReader.readExact 10 [] [[97, 98, 99]] false = .hang ∧
    BufferedReader.readExactLoop 2 [] [[97, 98, 99]] = .ok ([97, 98], ⟨[99], []⟩) ∧
    NodeReader.readExact 2 [] [[97, 98, 99]] false = .ok ([97, 98], [99]) := by decide

/-- C4: whenever the bytes of the stream contain a CRLF (first index `i`),
`readUntilCRLF` returns the bytes up to and including that CRLF and leaves
exactly the remaining bytes available — for every partition of the stream
into chunks, including partitions splitting the CRLF itself.  Hence any
two partitions of the same byte sequence yield the same returned line. -/
theorem readUntilCRLF_chunking_invariant (s : List Nat)
    (chunks1 chunks2 : List (List Nat)) (i : Nat)
    (h1 : chunks1.flatten = s) (h2 : chunks2.flatten = s)
    (hi : idxCRLF s = some i) :
    ∃ st1 st2 : ReaderState,
      BufferedReader.readUntilCRLFLoop [] chunks1 = .ok (s.take (i + 2), st1) ∧
      BufferedReader.readUntilCRLFLoop [] chunks2 = .ok (s.take (i + 2), st2) ∧
      st1.buf ++ st1.chunks.flatten = s.drop (i + 2) ∧
      st2.buf ++ st2.chunks.flatten = s.drop (i + 2) := by
  subst h1
  obtain ⟨st1, hr1, ha1⟩ :=
    readUntilCRLFLoop_ok_of_crlf chunks1 [] i (by simpa using hi)
  obtain ⟨st2, hr2, ha2⟩ :=
    readUntilCRLFLoop_ok_of_crlf chunks2 [] i (by simpa [h2] using hi)
  refine ⟨st1, st2, ?_, ?_, ?_, ?_⟩
  · simpa using hr1
  · simpa [h2] using hr2
  · simpa using ha1
  · simpa [h2] using ha2

/-- Witness for C4: the line `a\r\nb` delivered whole versus with the CRLF
split across two chunks. -/
theorem readUntilCRLF_chunking_invariant_witness :
    ([[97, 13, 10, 98]] : List (List Nat)).flatten = [97, 13, 10, 98] ∧
    ([[97, 13], [10, 98]] : List (List Nat)).flatten = [97, 13, 10, 98] ∧
    idxCRLF [97, 13, 10, 98] = some 1 ∧
    (∃ st1 st2 : ReaderState,
      BufferedReader.readUntilCRLFLoop [] [[97, 13, 10, 98]] =
        .ok (([97, 13, 10, 98] : List Nat).take 3, st1) ∧
      BufferedReader.readUntilCRLFLoop [] [[97, 13], [10, 98]] =
        .ok (([97, 13, 10, 98] : List Nat).take 3, st2) ∧
      st1.buf ++ st1.chunks.flatten = ([97, 13, 10, 98] : List Nat).drop 3 ∧
      st2.buf ++ st2.chunks.flatten = ([97, 13, 10, 98] : List Nat).drop 3) :=
  ⟨by decide, by decide, by decide,
    readUntilCRLF_chunking_invariant [97, 13, 10, 98] [[97, 13, 10, 98]] [[97, 13], [10, 98]] 1
      (by decide) (by decide) (by decide)⟩

/-- C5 counterexample: the claim says a second token with trailing
non-digits (`200abc`) or a negative sign (`-5`) must be rejected with
`MalformedStatusCode`; the implementation (JS `parseInt`) accepts both,
returning 200 and -5 as the status. -/
theorem readStatusLine_accepts_invalid_tokens :
    specValidNonNegIntToken (asciiBytes "200abc") = false ∧
    ResponseReader.readStatusLine ⟨asciiBytes "GURT/1.0.0 200abc" ++ [13, 10], []⟩ =
      .ok (⟨200, 19⟩, ⟨[], []⟩) ∧
    specValidNonNegIntToken (asciiBytes "-5") = false ∧
    ResponseReader.readStatusLine ⟨asciiBytes "GURT/1.0.0 -5" ++ [13, 10], []⟩ =
      .ok (⟨-5, 15⟩, ⟨[], []⟩) := by decide

/-- C5 (amended): for a CRLF-terminated status line whose first
space-separated token equals `GURT/1.0.0` exactly, `readStatusLine` fails
with `Invalid status code` (MalformedStatusCode) if and only if the second
space-separated token is absent or `parseInt(token, 10)` yields `NaN`
(no optional-sign digit prefix after leading whitespace); otherwise it
returns `parseInt`'s value — which may be negative and ignores trailing
non-digits — as the status. -/
theorem readStatusLine_malformed_iff_parseInt_nan (line : List Nat)
    (h : idxCRLF line = none)
    (hver : (splitOnSpace line).head? = some GURT_VERSION_B) :
    (ResponseReader.readStatusLine ⟨line ++ [13, 10], []⟩ = .error .invalidStatusCode ↔
      ((splitOnSpace line)[1]?.bind jsParseInt) = none) ∧
    (∀ v : Int, ((splitOnSpace line)[1]?.bind jsParseInt) = some v →
      ResponseReader.readStatusLine ⟨line ++ [13, 10], []⟩ =
        .ok (⟨v, line.length + 2⟩, ⟨[], []⟩)) := by
  rw [readStatusLine_line line h, if_pos hver]
  cases h1 : (splitOnSpace line)[1]? with
  | none => simp
  | some tok =>
    cases h2 : jsParseInt tok with
    | none => simp [h2]
    | some v => simp [h2]

/-- Witness for C5 (amended) on the line `GURT/1.0.0 404`. -/
theorem readStatusLine_malformed_iff_parseInt_nan_witness :
    idxCRLF (asciiBytes "GURT/1.0.0 404") = none ∧
    (splitOnSpace (asciiBytes "GURT/1.0.0 404")).head? = some GURT_VERSION_B ∧
    ((ResponseReader.readStatusLine ⟨asciiBytes "GURT/1.0.0 404" ++ [13, 10], []⟩ =
        .error .invalidStatusCode ↔
      ((splitOnSpace (asciiBytes "GURT/1.0.0 404"))[1]?.bind jsParseInt) = none) ∧
     (∀ v : Int, ((splitOnSpace (asciiBytes "GURT/1.0.0 404"))[1]?.bind jsParseInt) = some v →
      ResponseReader.readStatusLine ⟨asciiBytes "GURT/1.0.0 404" ++ [13, 10], []⟩ =
        .ok (⟨v, (asciiBytes "GURT/1.0.0 404").length + 2⟩, ⟨[], []⟩))) :=
  ⟨by decide, by decide,
    readStatusLine_malformed_iff_parseInt_nan (asciiBytes "GURT/1.0.0 404")
      (by decide) (by decide)⟩

/-- C6: for a CRLF-terminated header line splitting as
`before ++ ':' ++ after` at its FIRST colon (no colon in `before`, while
`after` may contain further colons), `readHeader` returns the name
`toLowerCase(trim(before))` and the value `trim(after)`; a non-empty line
with no colon fails with `Invalid header` (MalformedHeader); and the bare
two-byte CRLF line returns the no-more-headers result. -/
theorem readHeader_first_colon_split :
    (∀ before after : List Nat, 58 ∉ before → idxCRLF (before ++ 58 :: after) = none →
      ResponseReader.readHeader ⟨(before ++ 58 :: after) ++ [13, 10], []⟩ =
        .ok (some ⟨(trimBytes before).map toLowerByte, trimBytes after,
            before.length + after.length + 3⟩, ⟨[], []⟩)) ∧
    (∀ line : List Nat, 58 ∉ line → line ≠ [] → idxCRLF line = none →
      ResponseReader.readHeader ⟨line ++ [13, 10], []⟩ = .error .invalidHeader) ∧
    ResponseReader.readHeader ⟨[13, 10], []⟩ = .ok (none, ⟨[], []⟩) := by
  refine ⟨?_, ?_, by decide⟩
  · intro before after hb hcrlf
    rw [ResponseReader.readHeader, readUntilCRLF_whole_line _ hcrlf]
    dsimp only
    rw [if_neg (by simp; omega), crlf_line_extract, idxColon_append before after hb]
    dsimp only
    have hdrop : (before ++ 58 :: after).drop (before.length + 1) = after := by
      rw [← List.drop_drop, List.drop_left]
      rfl
    have htake : (before ++ 58 :: after).take before.length = before :=
      List.take_left before (58 :: after)
    have hlen : ((before ++ 58 :: after) ++ [13, 10]).length =
        before.length + after.length + 3 := by
      simp
      omega
    rw [hdrop, htake, hlen]
  · intro line hcolon hne hcrlf
    rw [ResponseReader.readHeader, readUntilCRLF_whole_line _ hcrlf]
    dsimp only
    have hne2 : ¬ (line ++ [13, 10]).length = 2 := by
      have hpos := List.length_pos.mpr hne
      simp only [List.length_append, List.length_cons, List.length_nil]
      omega
    rw [if_neg hne2, crlf_line_extract, idxColon_of_not_mem line hcolon]

/-- Witness for C6: `Host: example.com:4878` (value containing a colon),
a colon-free line, and the bare CRLF. -/
theorem readHeader_first_colon_split_witness :
    (58 ∉ asciiBytes "Host") ∧
    idxCRLF (asciiBytes "Host" ++ 58 :: asciiBytes " example.com:4878") = none ∧
    ResponseReader.readHeader
        ⟨(asciiBytes "Host" ++ 58 :: asciiBytes " example.com:4878") ++ [13, 10], []⟩ =
      .ok (some ⟨(trimBytes (asciiBytes "Host")).map toLowerByte,
          trimBytes (asciiBytes " example.com:4878"),
          (asciiBytes "Host").length + (asciiBytes " example.com:4878").length + 3⟩,
        ⟨[], []⟩) ∧
    ResponseReader.readHeader ⟨asciiBytes "nocolon" ++ [13, 10], []⟩ =
      .error .invalidHeader :=
  ⟨by decide, by decide,
    readHeader_first_colon_split.1 (asciiBytes "Host") (asciiBytes " example.com:4878")
      (by decide) (by decide),
    readHeader_first_colon_split.2.1 (asciiBytes "nocolon") (by decide) (by decide) (by decide)⟩

/-- C7: `requestNoBody(GET, "/api/data", "example.com")` with the
user-agent omitted emits exactly the claimed byte sequence, and for all
arguments the frame is the request line, `host` header, `user-agent`
header and blank line, in that fixed order, with the default user-agent
`yo-gurt/0.1` substituted when omitted. -/
theorem requestNoBody_frame_format :
    String.join (GurtClient.requestNoBody .get "/api/data" "example.com" none) =
      "GET /api/data GURT/1.0.0\r\nhost: example.com\r\nuser-agent: yo-gurt/0.1\r\n\r\n" ∧
    (∀ (m : Method) (p h ua : String),
      GurtClient.requestNoBody m p h (some ua) =
        [m.wire ++ " " ++ p ++ " " ++ GURT_VERSION_S ++ "\r\n",
         "host: " ++ h ++ "\r\n",
         "user-agent: " ++ ua ++ "\r\n",
         "\r\n"]) ∧
    (∀ (m : Method) (p h : String),
      GurtClient.requestNoBody m p h none =
        GurtClient.requestNoBody m p h (some "yo-gurt/0.1")) :=
  ⟨rfl, fun _ _ _ _ => rfl, fun _ _ _ => rfl⟩

/-- C8: on a transport delivering 3 bytes and then end-of-stream, a
10-byte `readBody` returns those 3 bytes on the first call and zero bytes
on the next, in both ports, and no error (`readAvailable` is total in the
web port, and the Node port resolves rather than hanging); in general the
web port's `readAvailable` returns zero bytes exactly at end-of-stream,
for a positive caller buffer and a transport delivering nonempty
chunks. -/
theorem readBody_three_then_zero_at_eof :
    ResponseReader.readBody 10 ⟨[], [[1, 2, 3]]⟩ = ([1, 2, 3], ⟨[], []⟩) ∧
    ResponseReader.readBody 10 ⟨[], []⟩ = ([], ⟨[], []⟩) ∧
    NodeReader.readAvailable 10 [] [[1, 2, 3]] false = .ok ([1, 2, 3], [], [], false) ∧
    NodeReader.readAvailable 10 [] [] false = .ok ([], [], [], true) ∧
    (∀ (n : Nat) (buf : List Nat) (chunks : List (List Nat)),
      0 < n → (∀ c ∈ chunks, c ≠ []) →
      ((BufferedReader.readAvailable n ⟨buf, chunks⟩).1 = [] ↔ buf = [] ∧ chunks = [])) := by
  refine ⟨by decide, by decide, by decide, by decide, ?_⟩
  intro n buf chunks hn hchunks
  constructor
  · intro hout
    cases hbuf : buf with
    | nil =>
      cases hch : chunks with
      | nil => exact ⟨rfl, rfl⟩
      | cons c rest =>
        exfalso
        subst hbuf
        subst hch
        have hc : c ≠ [] := hchunks c (by simp)
        simp only [BufferedReader.readAvailable, List.isEmpty_nil, if_pos,
          List.nil_append] at hout
        rw [List.take_eq_nil_iff] at hout
        rcases hout with hout | hout
        · have := List.length_pos.mpr hc
          omega
        · exact hc hout
    | cons b bs =>
      exfalso
      subst hbuf
      simp only [BufferedReader.readAvailable, List.isEmpty_cons] at hout
      rw [if_neg (by simp)] at hout
      rw [List.take_eq_nil_iff] at hout
      rcases hout with hout | hout
      · simp only [List.length_cons] at hout
        omega
      · exact absurd hout (by simp)
  · rintro ⟨rfl, rfl⟩
    simp [BufferedReader.readAvailable]

/-- Witness for C8's general clause at `n = 10`, an empty pending buffer
and one nonempty chunk. -/
theorem readBody_three_then_zero_at_eof_witness :
    (0 : Nat) < 10 ∧ (∀ c ∈ ([[1, 2, 3]] : List (List Nat)), c ≠ []) ∧
    ((BufferedReader.readAvailable 10 ⟨[], [[1, 2, 3]]⟩).1 = [] ↔
      ([] : List Nat) = [] ∧ ([[1, 2, 3]] : List (List Nat)) = []) :=
  ⟨by decide, by decide,
    readBody_three_then_zero_at_eof.2.2.2.2 10 [] [[1, 2, 3]] (by decide) (by decide)⟩

/-- C9: replacing the transport builds a brand-new reader: the pending
buffer is empty and bound to the new transport's chunks, independently of
the old state, so every successful read sequence issued after the swap
returns only bytes of the new transport (a prefix of its stream). -/
theorem setTransport_discards_pending_buffer (old : ReaderState)
    (newChunks : List (List Nat)) :
    GurtClient.setTransport old newChunks = ⟨[], newChunks⟩ ∧
    (∀ (ops : List Op) (out : List Nat) (st2 : ReaderState),
      runAll (GurtClient.setTransport old newChunks) ops = .ok (out, st2) →
      ∃ t, out ++ t = newChunks.flatten) := by
  refine ⟨rfl, ?_⟩
  intro ops out st2 h
  refine ⟨st2.buf ++ st2.chunks.flatten, ?_⟩
  have := runAll_conserve ops (GurtClient.setTransport old newChunks) out st2 h
  simpa [GurtClient.setTransport] using this

/-- Witness for C9: a swap away from a state with pending bytes, followed
by a 2-byte exact read that returns bytes of the new transport only. -/
theorem setTransport_discards_pending_buffer_witness :
    runAll (GurtClient.setTransport ⟨[9, 9], [[8]]⟩ [[1, 2], [3]]) [.exact 2] =
      .ok ([1, 2], ⟨[], [[3]]⟩) ∧
    (∃ t, [1, 2] ++ t = ([[1, 2], [3]] : List (List Nat)).flatten) :=
  ⟨by decide,
    (setTransport_discards_pending_buffer ⟨[9, 9], [[8]]⟩ [[1, 2], [3]]).2
      [.exact 2] [1, 2] ⟨[], [[3]]⟩ (by decide)⟩

/-- C10: for every sequence of successful `readExact`, `readUntilCRLF`
and `readAvailable` calls on one reader bound to a fixed transport, the
concatenation of all returned bytes, in call order, is a prefix of the
concatenation of the chunks the transport delivered. -/
theorem reader_outputs_prefix_of_stream (chunks : List (List Nat)) (ops : List Op)
    (out : List Nat) (st2 : ReaderState)
    (h : runAll ⟨[], chunks⟩ ops = .ok (out, st2)) :
    ∃ t, out ++ t = chunks.flatten := by
  refine ⟨st2.buf ++ st2.chunks.flatten, ?_⟩
  have := runAll_conserve ops ⟨[], chunks⟩ out st2 h
  simpa using this

/-- Witness for C10: a delimiter read, an exact read and an available
read together return exactly the delivered stream. -/
theorem reader_outputs_prefix_of_stream_witness :
    runAll ⟨[], [[72, 73, 13], [10, 74, 75, 76]]⟩ [.untilCRLF, .exact 1, .avail 5] =
      .ok ([72, 73, 13, 10, 74, 75, 76], ⟨[], []⟩) ∧
    (∃ t, [72, 73, 13, 10, 74, 75, 76] ++ t =
      ([[72, 73, 13], [10, 74, 75, 76]] : List (List Nat)).flatten) :=
  ⟨by decide,
    reader_outputs_prefix_of_stream [[72, 73, 13], [10, 74, 75, 76]]
      [.untilCRLF, .exact 1, .avail 5] [72, 73, 13, 10, 74, 75, 76] ⟨[], []⟩ (by decide)⟩

end Yonet
